import Mathlib

/-!
Verification of the h3-js size/bridge layer (`src/build/sizes.c` and
`src/build/sizes.h`).

The C file exposes seven zero-argument functions, each returning
`sizeof(T)` for a fixed struct `T` of the external h3 library, plus the
helper `int64PointerAsDouble`, which dereferences an `int64_t*` and casts
the value to `double`.

Embedding choices:
* The compiled byte sizes of the externally defined structs are not fixed
  by this repository (h3api.h is external), so they are an environment
  `SizeEnv` of arbitrary natural numbers; each `sizeOf*` function reads
  its field, exactly as the C function returns `sizeof(T)`.
* Program state is a memory `Mem` of 64-bit integer cells addressed by
  naturals, with a validity predicate; every operation is embedded as an
  explicit state-passing function so that freedom from side effects is a
  provable statement rather than an artifact.  Dereferencing an invalid
  pointer is undefined behavior in C, embedded as `none`.
* The C cast `(double)(*input)` on the Emscripten/wasm target is the
  IEEE-754 `f64.convert_i64_s` instruction: round to nearest, ties to
  even, at 53 significant bits.  Every `int64_t` converts to a double
  whose exact mathematical value is an integer, so the conversion is
  embedded as `doubleOfInt64 : Int → Int` returning that exact value,
  built from round-to-nearest-even on magnitudes (`rnd53`).
* The declaration lists of `sizes.h` and `sizes.c` are embedded as
  literal signature lists for the interface-inventory claims.
-/

namespace H3Sizes

/-- The C struct types measured or mentioned by the interface, plus
`H3Error` (the h3 v4 error-code type, which appears in the spec's data
model but in neither source file). -/
inductive CType where
  | H3Index
  | LatLng
  | CellBoundary
  | GeoLoop
  | GeoPolygon
  | LinkedGeoPolygon
  | CoordIJ
  | H3Error
  deriving DecidableEq

/-- The seven entities of the spec's data model (§3). -/
inductive Entity where
  | cellIndex
  | errorCode
  | coordinate
  | cellBoundary
  | inputPolygon
  | linkedPolygonList
  | ijCoordinate
  deriving DecidableEq

/-- The h3 C type that realizes each spec entity. -/
def entityType : Entity → CType
  | .cellIndex => .H3Index
  | .errorCode => .H3Error
  | .coordinate => .LatLng
  | .cellBoundary => .CellBoundary
  | .inputPolygon => .GeoPolygon
  | .linkedPolygonList => .LinkedGeoPolygon
  | .ijCoordinate => .CoordIJ

/-- Signature of a function of the C file: its name, its parameter
count, and, for a `sizeOf*` function, the struct whose `sizeof` it
returns. -/
structure CFun where
  name : String
  args : Nat
  measures : Option CType
  deriving DecidableEq

/-- The functions defined in `src/build/sizes.c`, in source order. -/
def sizesImpl : List CFun :=
  [⟨"sizeOfH3Index", 0, some .H3Index⟩,
   ⟨"sizeOfLatLng", 0, some .LatLng⟩,
   ⟨"sizeOfCellBoundary", 0, some .CellBoundary⟩,
   ⟨"sizeOfGeoLoop", 0, some .GeoLoop⟩,
   ⟨"sizeOfGeoPolygon", 0, some .GeoPolygon⟩,
   ⟨"sizeOfLinkedGeoPolygon", 0, some .LinkedGeoPolygon⟩,
   ⟨"sizeOfCoordIJ", 0, some .CoordIJ⟩,
   ⟨"int64PointerAsDouble", 1, none⟩]

/-- The function names declared in `src/build/sizes.h`, in source
order. -/
def sizesHeader : List String :=
  ["sizeOfH3Index", "sizeOfGeoCoord", "sizeOfGeoBoundary",
   "sizeOfGeofence", "sizeOfGeoPolygon", "sizeOfLinkedGeoPolygon"]

/-- The names of the functions defined in `src/build/sizes.c`. -/
def implNames : List String := sizesImpl.map CFun.name

/-- Compiled byte sizes of the externally defined structs: `sizeof(T)`
for each measured type, fixed per build by the external library's
headers. -/
structure SizeEnv where
  h3Index : Nat
  latLng : Nat
  cellBoundary : Nat
  geoLoop : Nat
  geoPolygon : Nat
  linkedGeoPolygon : Nat
  coordIJ : Nat

/-- Program memory: 64-bit integer cells addressed by naturals, and the
set of addresses that are valid to dereference. -/
structure Mem where
  load : Nat → Int
  valid : Nat → Bool

/-- Magnitude of the least binade step above 2^53: for `2^53 < a`, the
representable doubles around `a` are the integer multiples of
`2^(binadeK a)`. -/
def binadeK (a : Nat) : Nat := Nat.log2 a - 52

/-- Round a natural to the nearest integer multiple of `2^k`, ties to
the even multiple. -/
def rndMul (k a : Nat) : Nat :=
  if a % 2 ^ k < 2 ^ (k - 1) then a / 2 ^ k * 2 ^ k
  else if 2 ^ (k - 1) < a % 2 ^ k then (a / 2 ^ k + 1) * 2 ^ k
  else if a / 2 ^ k % 2 = 0 then a / 2 ^ k * 2 ^ k else (a / 2 ^ k + 1) * 2 ^ k

/-- Round a natural magnitude to 53 significant bits, round to nearest,
ties to even: magnitudes up to 2^53 are exact, larger ones round to the
nearest multiple of the binade step. -/
def rnd53 (a : Nat) : Nat :=
  if a ≤ 2 ^ 53 then a else rndMul (binadeK a) a

/-- Exact mathematical value of the IEEE-754 double produced by the C
cast `(double)v` from `int64_t` (wasm `f64.convert_i64_s`: round to
nearest, ties to even). -/
def doubleOfInt64 (v : Int) : Int :=
  if v < 0 then -(rnd53 v.natAbs : Int) else (rnd53 v.natAbs : Int)

/-- A rational is the exact value of a finite IEEE-754 double iff it is
`m * 2^e` with `|m| ≤ 2^53` (exponent range is irrelevant at int64
magnitudes). -/
def RepresentableD (y : ℚ) : Prop :=
  ∃ (m e : ℤ), m.natAbs ≤ 2 ^ 53 ∧ y = (m : ℚ) * 2 ^ e

/-- Embedding of `int sizeOfH3Index() { return sizeof(H3Index); }` as a
state-passing function. -/
def sizeOfH3Index (env : SizeEnv) (s : Mem) : Int × Mem :=
  ((env.h3Index : Int), s)

/-- Embedding of `int sizeOfLatLng() { return sizeof(LatLng); }`. -/
def sizeOfLatLng (env : SizeEnv) (s : Mem) : Int × Mem :=
  ((env.latLng : Int), s)

/-- Embedding of `int sizeOfCellBoundary()`. -/
def sizeOfCellBoundary (env : SizeEnv) (s : Mem) : Int × Mem :=
  ((env.cellBoundary : Int), s)

/-- Embedding of `int sizeOfGeoLoop()`. -/
def sizeOfGeoLoop (env : SizeEnv) (s : Mem) : Int × Mem :=
  ((env.geoLoop : Int), s)

/-- Embedding of `int sizeOfGeoPolygon()`. -/
def sizeOfGeoPolygon (env : SizeEnv) (s : Mem) : Int × Mem :=
  ((env.geoPolygon : Int), s)

/-- Embedding of `int sizeOfLinkedGeoPolygon()`. -/
def sizeOfLinkedGeoPolygon (env : SizeEnv) (s : Mem) : Int × Mem :=
  ((env.linkedGeoPolygon : Int), s)

/-- Embedding of `int sizeOfCoordIJ()`. -/
def sizeOfCoordIJ (env : SizeEnv) (s : Mem) : Int × Mem :=
  ((env.coordIJ : Int), s)

/-- Embedding of
`double int64PointerAsDouble(int64_t *input) { return (double)(*input); }`:
dereference the pointer (undefined behavior — `none` — if invalid) and
convert the 64-bit value to a double. -/
def int64PointerAsDouble (s : Mem) (p : Nat) : Option (Int × Mem) :=
  if s.valid p then some (doubleOfInt64 (s.load p), s) else none

/-- Header declarations present in `sizes.h` but never defined in
`sizes.c`. -/
def headerOnly : List String :=
  sizesHeader.filter (fun n => !(implNames.contains n))

/-- Functions defined in `sizes.c` but never declared in `sizes.h`. -/
def implOnly : List String :=
  implNames.filter (fun n => !(sizesHeader.contains n))

/-- Functions both declared in `sizes.h` and defined in `sizes.c`. -/
def inBoth : List String :=
  sizesHeader.filter (fun n => sizesHeader.contains n && implNames.contains n)

/-- A sample size environment (the byte sizes of the h3 v4 structs on a
64-bit target). -/
def envW : SizeEnv := ⟨8, 16, 168, 16, 40, 40, 8⟩

/-- A sample memory holding 2^53 in every cell, all addresses valid. -/
def memC1 : Mem := ⟨fun _ => 9007199254740992, fun _ => true⟩

/-- A sample memory holding the maximum 64-bit signed integer in every
cell, all addresses valid. -/
def memC2 : Mem := ⟨fun _ => 9223372036854775807, fun _ => true⟩

/-- A sample memory holding -5 at address 0 and 7 elsewhere, all
addresses valid. -/
def memC10 : Mem := ⟨fun n => if n = 0 then -5 else 7, fun _ => true⟩

/-! ### Rounding to the nearest multiple of a binade step -/

theorem rndMul_spec (k a : Nat) :
    (rndMul k a = a / 2 ^ k * 2 ^ k ∧ a % 2 ^ k ≤ 2 ^ (k - 1)) ∨
    (rndMul k a = (a / 2 ^ k + 1) * 2 ^ k ∧ 2 ^ (k - 1) ≤ a % 2 ^ k) := by
  unfold rndMul
  split
  · exact Or.inl ⟨rfl, le_of_lt (by assumption)⟩
  · split
    · exact Or.inr ⟨rfl, le_of_lt (by assumption)⟩
    · split
      · exact Or.inl ⟨rfl, by omega⟩
      · exact Or.inr ⟨rfl, by omega⟩

theorem rndMul_cases (k a : Nat) :
    (rndMul k a = a / 2 ^ k * 2 ^ k ∧
      (a % 2 ^ k < 2 ^ (k - 1) ∨ (a % 2 ^ k = 2 ^ (k - 1) ∧ a / 2 ^ k % 2 = 0))) ∨
    (rndMul k a = (a / 2 ^ k + 1) * 2 ^ k ∧
      (2 ^ (k - 1) < a % 2 ^ k ∨ (a % 2 ^ k = 2 ^ (k - 1) ∧ a / 2 ^ k % 2 = 1))) := by
  unfold rndMul
  split
  · exact Or.inl ⟨rfl, Or.inl (by assumption)⟩
  · split
    · exact Or.inr ⟨rfl, Or.inl (by assumption)⟩
    · split
      · exact Or.inl ⟨rfl, Or.inr (by omega)⟩
      · exact Or.inr ⟨rfl, Or.inr (by omega)⟩

theorem le_rndMul (k a : Nat) : a / 2 ^ k * 2 ^ k ≤ rndMul k a := by
  rcases rndMul_spec k a with ⟨h, _⟩ | ⟨h, _⟩
  · omega
  · have := Nat.mul_le_mul_right (2 ^ k)
      (show a / 2 ^ k ≤ a / 2 ^ k + 1 by omega)
    omega

theorem rndMul_le (k a : Nat) : rndMul k a ≤ (a / 2 ^ k + 1) * 2 ^ k := by
  rcases rndMul_spec k a with ⟨h, _⟩ | ⟨h, _⟩
  · have := Nat.mul_le_mul_right (2 ^ k)
      (show a / 2 ^ k ≤ a / 2 ^ k + 1 by omega)
    omega
  · omega

theorem rndMul_mono (k : Nat) {a b : Nat} (hab : a ≤ b) :
    rndMul k a ≤ rndMul k b := by
  have hQ : a / 2 ^ k ≤ b / 2 ^ k := Nat.div_le_div_right hab
  rcases Nat.lt_or_ge (a / 2 ^ k) (b / 2 ^ k) with hlt | hge
  · have h1 := rndMul_le k a
    have h2 := le_rndMul k b
    have h3 : (a / 2 ^ k + 1) * 2 ^ k ≤ b / 2 ^ k * 2 ^ k :=
      Nat.mul_le_mul_right (2 ^ k) hlt
    omega
  · have hQeq : a / 2 ^ k = b / 2 ^ k := le_antisymm hQ hge
    have hda := Nat.div_add_mod a (2 ^ k)
    have hdb := Nat.div_add_mod b (2 ^ k)
    have hdb' : 2 ^ k * (a / 2 ^ k) + b % 2 ^ k = b := by rw [hQeq]; exact hdb
    have hR : a % 2 ^ k ≤ b % 2 ^ k := by omega
    rcases rndMul_cases k a with ⟨ha, hca⟩ | ⟨ha, hca⟩ <;>
      rcases rndMul_cases k b with ⟨hb, hcb⟩ | ⟨hb, hcb⟩
    · rw [ha, hb, hQeq]
    · rw [ha, hb, hQeq]
      exact Nat.mul_le_mul_right (2 ^ k) (by omega)
    · exfalso
      rw [hQeq] at hca
      omega
    · rw [ha, hb, hQeq]

theorem rndMul_nearest {k : Nat} (hk : 1 ≤ k) (a : Nat) (M : Int) :
    |(a : Int) - rndMul k a| ≤ |(a : Int) - M * 2 ^ k| := by
  have hpow : (2 : Int) ^ k = 2 * 2 ^ (k - 1) := by
    conv_lhs => rw [show k = k - 1 + 1 by omega]
    ring
  have hKpos : (0 : Int) < 2 ^ k := by positivity
  have hdm : (2 : Int) ^ k * ((a / 2 ^ k : Nat) : Int) + ((a % 2 ^ k : Nat) : Int)
      = (a : Int) := by exact_mod_cast Nat.div_add_mod a (2 ^ k)
  have hR0 : (0 : Int) ≤ ((a % 2 ^ k : Nat) : Int) := by positivity
  have hRlt : ((a % 2 ^ k : Nat) : Int) < 2 ^ k := by
    exact_mod_cast Nat.mod_lt a (by positivity)
  rcases rndMul_spec k a with ⟨hr, hc⟩ | ⟨hr, hc⟩
  · have hrInt : ((rndMul k a : Nat) : Int) = ((a / 2 ^ k : Nat) : Int) * 2 ^ k := by
      exact_mod_cast hr
    have hcInt : ((a % 2 ^ k : Nat) : Int) ≤ 2 ^ (k - 1) := by exact_mod_cast hc
    have h1 : (a : Int) - rndMul k a = ((a % 2 ^ k : Nat) : Int) := by
      rw [hrInt]; linarith
    rw [h1, abs_of_nonneg hR0]
    rcases le_or_lt M ((a / 2 ^ k : Nat) : Int) with hM | hM
    · have hm1 : M * 2 ^ k ≤ ((a / 2 ^ k : Nat) : Int) * 2 ^ k :=
        mul_le_mul_of_nonneg_right hM hKpos.le
      have h2 : ((a % 2 ^ k : Nat) : Int) ≤ (a : Int) - M * 2 ^ k := by linarith
      exact h2.trans (le_abs_self _)
    · have hm1 : (((a / 2 ^ k : Nat) : Int) + 1) * 2 ^ k ≤ M * 2 ^ k :=
        mul_le_mul_of_nonneg_right (by omega) hKpos.le
      have h2 : ((a % 2 ^ k : Nat) : Int) ≤ -((a : Int) - M * 2 ^ k) := by nlinarith
      exact h2.trans (neg_le_abs _)
  · have hrInt : ((rndMul k a : Nat) : Int)
        = (((a / 2 ^ k : Nat) : Int) + 1) * 2 ^ k := by exact_mod_cast hr
    have hcInt : (2 : Int) ^ (k - 1) ≤ ((a % 2 ^ k : Nat) : Int) := by exact_mod_cast hc
    have h1 : (a : Int) - rndMul k a = ((a % 2 ^ k : Nat) : Int) - 2 ^ k := by
      rw [hrInt]; ring_nf; linarith
    have h1abs : |(a : Int) - rndMul k a| = 2 ^ k - ((a % 2 ^ k : Nat) : Int) := by
      rw [h1, abs_of_nonpos (by linarith)]; ring
    rw [h1abs]
    rcases le_or_lt M ((a / 2 ^ k : Nat) : Int) with hM | hM
    · have hm1 : M * 2 ^ k ≤ ((a / 2 ^ k : Nat) : Int) * 2 ^ k :=
        mul_le_mul_of_nonneg_right hM hKpos.le
      have h2 : (2 : Int) ^ k - ((a % 2 ^ k : Nat) : Int) ≤ (a : Int) - M * 2 ^ k := by
        linarith
      exact h2.trans (le_abs_self _)
    · have hm1 : (((a / 2 ^ k : Nat) : Int) + 1) * 2 ^ k ≤ M * 2 ^ k :=
        mul_le_mul_of_nonneg_right (by omega) hKpos.le
      have h2 : (2 : Int) ^ k - ((a % 2 ^ k : Nat) : Int) ≤ -((a : Int) - M * 2 ^ k) := by
        nlinarith
      exact h2.trans (neg_le_abs _)

theorem rndMul_dist {k : Nat} (hk : 1 ≤ k) (a : Nat) :
    |(a : Int) - rndMul k a| ≤ 2 ^ (k - 1) := by
  have hpow : (2 : Int) ^ k = 2 * 2 ^ (k - 1) := by
    conv_lhs => rw [show k = k - 1 + 1 by omega]
    ring
  have hdm : (2 : Int) ^ k * ((a / 2 ^ k : Nat) : Int) + ((a % 2 ^ k : Nat) : Int)
      = (a : Int) := by exact_mod_cast Nat.div_add_mod a (2 ^ k)
  have hR0 : (0 : Int) ≤ ((a % 2 ^ k : Nat) : Int) := by positivity
  have hRlt : ((a % 2 ^ k : Nat) : Int) < 2 ^ k := by
    exact_mod_cast Nat.mod_lt a (by positivity)
  rcases rndMul_spec k a with ⟨hr, hc⟩ | ⟨hr, hc⟩
  · have hrInt : ((rndMul k a : Nat) : Int) = ((a / 2 ^ k : Nat) : Int) * 2 ^ k := by
      exact_mod_cast hr
    have hcInt : ((a % 2 ^ k : Nat) : Int) ≤ 2 ^ (k - 1) := by exact_mod_cast hc
    have h1 : (a : Int) - rndMul k a = ((a % 2 ^ k : Nat) : Int) := by
      rw [hrInt]; linarith
    rw [h1, abs_of_nonneg hR0]; exact hcInt
  · have hrInt : ((rndMul k a : Nat) : Int)
        = (((a / 2 ^ k : Nat) : Int) + 1) * 2 ^ k := by exact_mod_cast hr
    have hcInt : (2 : Int) ^ (k - 1) ≤ ((a % 2 ^ k : Nat) : Int) := by exact_mod_cast hc
    have h1 : (a : Int) - rndMul k a = ((a % 2 ^ k : Nat) : Int) - 2 ^ k := by
      rw [hrInt]; ring_nf; linarith
    rw [h1, abs_of_nonpos (by linarith)]; linarith

/-! ### Binade bounds -/

theorem binade_bounds {a : Nat} (h : 2 ^ 53 < a) :
    1 ≤ binadeK a ∧ 2 ^ (52 + binadeK a) ≤ a ∧ a < 2 ^ (53 + binadeK a) := by
  have ha0 : a ≠ 0 := by positivity
  have h53 : 53 ≤ Nat.log2 a := (Nat.le_log2 ha0).mpr h.le
  have h52 : 52 + binadeK a = Nat.log2 a := by unfold binadeK; omega
  have h53e : 53 + binadeK a = Nat.log2 a + 1 := by unfold binadeK; omega
  refine ⟨by unfold binadeK; omega, ?_, ?_⟩
  · rw [h52]; exact Nat.log2_self_le ha0
  · rw [h53e]; exact Nat.lt_log2_self

theorem binadeK_mono {a b : Nat} (ha : a ≠ 0) (hab : a ≤ b) :
    binadeK a ≤ binadeK b := by
  have hb0 : b ≠ 0 := by omega
  have : Nat.log2 a ≤ Nat.log2 b :=
    (Nat.le_log2 hb0).mpr ((Nat.log2_self_le ha).trans hab)
  unfold binadeK; omega

/-! ### Rounding a magnitude to 53 significant bits -/

theorem rnd53_eq_self {a : Nat} (h : a ≤ 2 ^ 53) : rnd53 a = a := by
  unfold rnd53; rw [if_pos h]

theorem rnd53_eq_rndMul {a : Nat} (h : 2 ^ 53 < a) :
    rnd53 a = rndMul (binadeK a) a := by
  unfold rnd53; rw [if_neg (by omega)]

theorem rnd53_lb {a : Nat} (h : 2 ^ 53 < a) :
    2 ^ (52 + binadeK a) ≤ rnd53 a := by
  obtain ⟨hk1, hlb, hub⟩ := binade_bounds h
  rw [rnd53_eq_rndMul h]
  have hKpos : 0 < 2 ^ binadeK a := by positivity
  have hq : 2 ^ 52 ≤ a / 2 ^ binadeK a := by
    rw [Nat.le_div_iff_mul_le hKpos, ← pow_add]
    exact hlb
  calc 2 ^ (52 + binadeK a) = 2 ^ 52 * 2 ^ binadeK a := by rw [pow_add]
    _ ≤ a / 2 ^ binadeK a * 2 ^ binadeK a := Nat.mul_le_mul_right _ hq
    _ ≤ rndMul (binadeK a) a := le_rndMul _ _

theorem rnd53_ub {a : Nat} (h : 2 ^ 53 < a) :
    rnd53 a ≤ 2 ^ (53 + binadeK a) := by
  obtain ⟨hk1, hlb, hub⟩ := binade_bounds h
  rw [rnd53_eq_rndMul h]
  have hKpos : 0 < 2 ^ binadeK a := by positivity
  have hq : a / 2 ^ binadeK a + 1 ≤ 2 ^ 53 := by
    have : a / 2 ^ binadeK a < 2 ^ 53 := by
      rw [Nat.div_lt_iff_lt_mul hKpos, ← pow_add]
      omega
    omega
  calc rndMul (binadeK a) a ≤ (a / 2 ^ binadeK a + 1) * 2 ^ binadeK a :=
        rndMul_le _ _
    _ ≤ 2 ^ 53 * 2 ^ binadeK a := Nat.mul_le_mul_right _ hq
    _ = 2 ^ (53 + binadeK a) := by rw [pow_add]

theorem rnd53_mono {a b : Nat} (hab : a ≤ b) : rnd53 a ≤ rnd53 b := by
  rcases le_or_lt b (2 ^ 53) with hb | hb
  · rw [rnd53_eq_self (hab.trans hb), rnd53_eq_self hb]; exact hab
  · rcases le_or_lt a (2 ^ 53) with ha | ha
    · rw [rnd53_eq_self ha]
      have h1 : 2 ^ 53 ≤ 2 ^ (52 + binadeK b) := by
        obtain ⟨hk1, _, _⟩ := binade_bounds hb
        exact Nat.pow_le_pow_right (by omega) (by omega)
      exact le_trans (ha.trans h1) (rnd53_lb hb)
    · have hk : binadeK a ≤ binadeK b := binadeK_mono (by positivity) hab
      rcases eq_or_lt_of_le hk with hkeq | hklt
      · rw [rnd53_eq_rndMul ha, rnd53_eq_rndMul hb, hkeq]
        exact rndMul_mono _ hab
      · have h1 : rnd53 a ≤ 2 ^ (53 + binadeK a) := rnd53_ub ha
        have h2 : 2 ^ (52 + binadeK b) ≤ rnd53 b := rnd53_lb hb
        have h3 : (2 : Nat) ^ (53 + binadeK a) ≤ 2 ^ (52 + binadeK b) :=
          Nat.pow_le_pow_right (by omega) (by omega)
        omega

theorem rnd53_pos {a : Nat} (h : 0 < a) : 0 < rnd53 a := by
  rcases le_or_lt a (2 ^ 53) with ha | ha
  · rw [rnd53_eq_self ha]; exact h
  · have := rnd53_lb ha
    have : (0 : Nat) < 2 ^ (52 + binadeK a) := by positivity
    omega

theorem rnd53_rep {a : Nat} (h : 2 ^ 53 < a) :
    ∃ m : Nat, m ≤ 2 ^ 53 ∧ rnd53 a = m * 2 ^ binadeK a := by
  obtain ⟨hk1, hlb, hub⟩ := binade_bounds h
  have hKpos : 0 < 2 ^ binadeK a := by positivity
  have hq : a / 2 ^ binadeK a < 2 ^ 53 := by
    rw [Nat.div_lt_iff_lt_mul hKpos, ← pow_add]
    omega
  rw [rnd53_eq_rndMul h]
  rcases rndMul_spec (binadeK a) a with ⟨hr, _⟩ | ⟨hr, _⟩
  · exact ⟨a / 2 ^ binadeK a, by omega, hr⟩
  · exact ⟨a / 2 ^ binadeK a + 1, by omega, hr⟩

theorem rnd53_nearest_int {a : Nat} (h : 2 ^ 53 < a) (M : Int) :
    |(a : Int) - rnd53 a| ≤ |(a : Int) - M * 2 ^ binadeK a| := by
  obtain ⟨hk1, _, _⟩ := binade_bounds h
  rw [rnd53_eq_rndMul h]
  exact rndMul_nearest hk1 a M

theorem RepresentableD_neg {y : ℚ} (hy : RepresentableD y) :
    RepresentableD (-y) := by
  obtain ⟨m, e, hm, rfl⟩ := hy
  exact ⟨-m, e, by simpa using hm, by push_cast; ring⟩

theorem rnd53_nearest_rat {a : Nat} (h : 2 ^ 53 < a) {y : ℚ}
    (hy : RepresentableD y) :
    |(a : ℚ) - rnd53 a| ≤ |(a : ℚ) - y| := by
  obtain ⟨m, e, hm, rfl⟩ := hy
  obtain ⟨hk1, hlb, hub⟩ := binade_bounds h
  rcases le_or_lt (binadeK a : ℤ) e with he | he
  · have htn : ((e - (binadeK a : ℤ)).toNat : ℤ) = e - binadeK a :=
      Int.toNat_of_nonneg (by omega)
    have hM : (m : ℚ) * 2 ^ e
        = ((m * 2 ^ (e - (binadeK a : ℤ)).toNat * 2 ^ binadeK a : ℤ) : ℚ) := by
      push_cast
      rw [mul_assoc, ← zpow_natCast (2 : ℚ) (e - (binadeK a : ℤ)).toNat,
        ← zpow_natCast (2 : ℚ) (binadeK a), ← zpow_add₀ (two_ne_zero) , htn,
        sub_add_cancel]
    rw [hM]
    exact_mod_cast rnd53_nearest_int h (m * 2 ^ (e - (binadeK a : ℤ)).toNat)
  · have habs : |(m : ℚ) * 2 ^ e| ≤ 2 ^ (52 + binadeK a) := by
      rw [abs_mul]
      have h1 : |(m : ℚ)| ≤ 2 ^ 53 := by
        rw [← Int.cast_abs, Int.abs_eq_natAbs]
        exact_mod_cast hm
      have h2 : |(2 : ℚ) ^ e| = 2 ^ e := abs_of_pos (by positivity)
      have h3 : (2 : ℚ) ^ e ≤ 2 ^ ((binadeK a : ℤ) - 1) :=
        zpow_le_zpow_right₀ one_le_two (by omega)
      have h5 : (2 : ℚ) ^ (52 + binadeK a)
          = 2 ^ (53 : ℤ) * 2 ^ ((binadeK a : ℤ) - 1) := by
        rw [← zpow_natCast (2 : ℚ) (52 + binadeK a), ← zpow_add₀ (two_ne_zero)]
        congr 1
        push_cast
        ring
      calc |(m : ℚ)| * |(2 : ℚ) ^ e|
          ≤ 2 ^ (53 : ℤ) * 2 ^ ((binadeK a : ℤ) - 1) := by
            refine mul_le_mul ?_ (h2.le.trans ?_) (abs_nonneg _) (by positivity)
            · exact_mod_cast h1
            · exact_mod_cast h3
        _ = 2 ^ (52 + binadeK a) := h5.symm
    have hyle : (m : ℚ) * 2 ^ e ≤ 2 ^ (52 + binadeK a) :=
      (le_abs_self _).trans habs
    have hlbz : ((2 : ℤ) ^ (52 + binadeK a)) ≤ (a : ℤ) := by exact_mod_cast hlb
    have h0 := rnd53_nearest_int h ((2 : ℤ) ^ 52)
    rw [← pow_add] at h0
    have habs2 : |(a : ℤ) - 2 ^ (52 + binadeK a)| = (a : ℤ) - 2 ^ (52 + binadeK a) :=
      abs_of_nonneg (by linarith)
    rw [habs2] at h0
    have hIntQ : |(a : ℚ) - rnd53 a| ≤ (a : ℚ) - 2 ^ (52 + binadeK a) := by
      have hq : ((|(a : Int) - (rnd53 a : Int)| : Int) : ℚ)
          ≤ (((a : Int) - 2 ^ (52 + binadeK a) : Int) : ℚ) := Int.cast_le.mpr h0
      push_cast at hq
      exact_mod_cast hq
    have hle2 : (a : ℚ) - 2 ^ (52 + binadeK a) ≤ (a : ℚ) - (m : ℚ) * 2 ^ e := by
      linarith
    exact hIntQ.trans (hle2.trans (le_abs_self _))

/-! ### The int64 → double conversion -/

theorem doubleOfInt64_exact {v : Int} (h : v.natAbs ≤ 2 ^ 53) :
    doubleOfInt64 v = v := by
  unfold doubleOfInt64
  have h1 : rnd53 v.natAbs = v.natAbs := rnd53_eq_self h
  split <;> rw [h1] <;> omega

theorem doubleOfInt64_mono {v w : Int} (h : v ≤ w) :
    doubleOfInt64 v ≤ doubleOfInt64 w := by
  unfold doubleOfInt64
  split <;> split
  · have : rnd53 w.natAbs ≤ rnd53 v.natAbs := rnd53_mono (by omega)
    omega
  · omega
  · omega
  · have : rnd53 v.natAbs ≤ rnd53 w.natAbs := rnd53_mono (by omega)
    omega

theorem doubleOfInt64_sign (v : Int) :
    (doubleOfInt64 v < 0 ↔ v < 0) ∧ (doubleOfInt64 v = 0 ↔ v = 0) ∧
      (0 < doubleOfInt64 v ↔ 0 < v) := by
  unfold doubleOfInt64
  split
  · have h1 : 0 < rnd53 v.natAbs := rnd53_pos (by omega)
    omega
  · rcases eq_or_lt_of_le (show (0 : Int) ≤ v by omega) with hv0 | hvpos
    · have h0 : rnd53 v.natAbs = 0 := by
        rw [show v.natAbs = 0 by omega]
        exact rnd53_eq_self (by positivity)
      omega
    · have h1 : 0 < rnd53 v.natAbs := rnd53_pos (by omega)
      omega

theorem doubleOfInt64_rep {v : Int} (h : 2 ^ 53 < v.natAbs) :
    RepresentableD ((doubleOfInt64 v : Int) : ℚ) := by
  obtain ⟨m, hm, hr⟩ := rnd53_rep h
  unfold doubleOfInt64
  split
  · refine ⟨-(m : ℤ), (binadeK v.natAbs : ℤ), by simpa using hm, ?_⟩
    push_cast [hr]
    rw [← zpow_natCast (2 : ℚ) (binadeK v.natAbs)]
    ring
  · refine ⟨(m : ℤ), (binadeK v.natAbs : ℤ), by simpa using hm, ?_⟩
    push_cast [hr]
    rw [← zpow_natCast (2 : ℚ) (binadeK v.natAbs)]

theorem doubleOfInt64_nearest {v : Int} (h : 2 ^ 53 < v.natAbs) {y : ℚ}
    (hy : RepresentableD y) :
    |(v : ℚ) - ((doubleOfInt64 v : Int) : ℚ)| ≤ |(v : ℚ) - y| := by
  rcases lt_trichotomy v 0 with hv | hv | hv
  · have hd : doubleOfInt64 v = -(rnd53 v.natAbs : Int) := by
      unfold doubleOfInt64; rw [if_pos hv]
    have hA : ((v.natAbs : ℚ)) = -(v : ℚ) := by
      rw [Int.cast_natAbs, abs_of_neg hv]
      push_cast
      ring
    have hbase := rnd53_nearest_rat h (RepresentableD_neg hy)
    have e1 : |(v.natAbs : ℚ) - (rnd53 v.natAbs : Nat)|
        = |(v : ℚ) - ((doubleOfInt64 v : Int) : ℚ)| := by
      rw [hd, hA]
      push_cast
      rw [show -(v : ℚ) - (rnd53 v.natAbs : Nat)
          = -((v : ℚ) - -((rnd53 v.natAbs : Nat) : ℚ)) by ring, abs_neg]
    have e2 : |(v.natAbs : ℚ) - -y| = |(v : ℚ) - y| := by
      rw [hA, show -(v : ℚ) - -y = -((v : ℚ) - y) by ring, abs_neg]
    rw [e1, e2] at hbase
    exact hbase
  · exfalso
    rw [hv] at h
    simp at h
  · have hd : doubleOfInt64 v = (rnd53 v.natAbs : Int) := by
      unfold doubleOfInt64; rw [if_neg (by omega)]
    have hA : ((v.natAbs : ℚ)) = (v : ℚ) := by
      rw [Int.cast_natAbs, abs_of_pos hv]
    have hbase := rnd53_nearest_rat h hy
    rw [hA] at hbase
    rw [hd]
    push_cast
    exact hbase

/-! ### The claims -/

/-- C1: for every 64-bit signed integer value v with -(2^53) ≤ v ≤ 2^53
stored at a valid location, `int64PointerAsDouble` succeeds, returns a
double exactly equal to v, and leaves memory unchanged (so 0 yields 0.0,
1 yields 1.0, -1 yields -1.0, and 2^53 yields exactly 2^53). -/
theorem claim_C1 (s : Mem) (p : Nat) (hv : s.valid p = true)
    (h1 : -(2 ^ 53) ≤ s.load p) (h2 : s.load p ≤ 2 ^ 53) :
    int64PointerAsDouble s p = some (s.load p, s) := by
  unfold int64PointerAsDouble
  rw [if_pos hv, doubleOfInt64_exact (by omega)]

/-- C1 witness: a location holding 9007199254740992 (2^53) converts to
exactly that value. -/
theorem claim_C1_witness :
    int64PointerAsDouble memC1 0 = some (9007199254740992, memC1) :=
  claim_C1 memC1 0 rfl (by decide) (by decide)

/-- C2: for every 64-bit signed integer value v with |v| > 2^53 stored at
a valid location, `int64PointerAsDouble` returns the representable
double-precision value nearest to v: the result is representable and no
representable value lies strictly closer to v. -/
theorem claim_C2 (s : Mem) (p : Nat) (hv : s.valid p = true)
    (h1 : 2 ^ 53 < (s.load p).natAbs) (hlo : -(2 ^ 63) ≤ s.load p)
    (hhi : s.load p < 2 ^ 63) :
    ∃ d : Int, int64PointerAsDouble s p = some (d, s) ∧
      RepresentableD ((d : Int) : ℚ) ∧
      ∀ y : ℚ, RepresentableD y →
        |((s.load p : Int) : ℚ) - (d : ℚ)| ≤ |((s.load p : Int) : ℚ) - y| := by
  refine ⟨doubleOfInt64 (s.load p), ?_, doubleOfInt64_rep h1,
    fun y hy => doubleOfInt64_nearest h1 hy⟩
  unfold int64PointerAsDouble
  rw [if_pos hv]

/-- C2 witness: a location holding 9223372036854775807 (the maximum
64-bit signed integer) converts to the double closest to that value. -/
theorem claim_C2_witness :
    ∃ d : Int, int64PointerAsDouble memC2 0 = some (d, memC2) ∧
      RepresentableD ((d : Int) : ℚ) ∧
      ∀ y : ℚ, RepresentableD y →
        |((memC2.load 0 : Int) : ℚ) - (d : ℚ)| ≤ |((memC2.load 0 : Int) : ℚ) - y| :=
  claim_C2 memC2 0 rfl (by decide) (by decide) (by decide)

/-- C3 counterexample: it is false that every entity of the spec's data
model has a zero-argument size query in `sizes.c` — the ErrorCode entity
(C type `H3Error`) has none. -/
theorem claim_C3_counterexample :
    ¬ ∀ e : Entity, ∃ f ∈ sizesImpl, f.args = 0 ∧
      f.measures = some (entityType e) :=
  fun h => absurd (h Entity.errorCode) (by decide)

/-- C3 (amended): `sizes.c` exposes a zero-argument size query for six of
the spec's seven entities — all but ErrorCode — and no function of the
file measures the error-code type. -/
theorem claim_C3 :
    (∀ e : Entity, e ≠ Entity.errorCode →
      ∃ f ∈ sizesImpl, f.args = 0 ∧ f.measures = some (entityType e)) ∧
    ¬ ∃ f ∈ sizesImpl, f.args = 0 ∧
      f.measures = some (entityType Entity.errorCode) := by
  constructor
  · intro e he
    cases e <;> first | exact absurd rfl he | decide
  · decide

/-- C3 witness: the cell-index entity does have a size query. -/
theorem claim_C3_witness :
    ∃ f ∈ sizesImpl, f.args = 0 ∧
      f.measures = some (entityType Entity.cellIndex) :=
  claim_C3.1 Entity.cellIndex (by decide)

/-- C4: every size query returns exactly the compiled byte size of its
record type (the `sizeof` surfaced by the environment), that value is
non-negative, and the call always returns (it is a total function with no
failure case). -/
theorem claim_C4 (env : SizeEnv) (s : Mem) :
    (sizeOfH3Index env s = ((env.h3Index : Int), s) ∧
      0 ≤ (sizeOfH3Index env s).1) ∧
    (sizeOfLatLng env s = ((env.latLng : Int), s) ∧
      0 ≤ (sizeOfLatLng env s).1) ∧
    (sizeOfCellBoundary env s = ((env.cellBoundary : Int), s) ∧
      0 ≤ (sizeOfCellBoundary env s).1) ∧
    (sizeOfGeoLoop env s = ((env.geoLoop : Int), s) ∧
      0 ≤ (sizeOfGeoLoop env s).1) ∧
    (sizeOfGeoPolygon env s = ((env.geoPolygon : Int), s) ∧
      0 ≤ (sizeOfGeoPolygon env s).1) ∧
    (sizeOfLinkedGeoPolygon env s = ((env.linkedGeoPolygon : Int), s) ∧
      0 ≤ (sizeOfLinkedGeoPolygon env s).1) ∧
    (sizeOfCoordIJ env s = ((env.coordIJ : Int), s) ∧
      0 ≤ (sizeOfCoordIJ env s).1) :=
  ⟨⟨rfl, Int.natCast_nonneg _⟩, ⟨rfl, Int.natCast_nonneg _⟩,
   ⟨rfl, Int.natCast_nonneg _⟩, ⟨rfl, Int.natCast_nonneg _⟩,
   ⟨rfl, Int.natCast_nonneg _⟩, ⟨rfl, Int.natCast_nonneg _⟩,
   ⟨rfl, Int.natCast_nonneg _⟩⟩

/-- C5: every size query is deterministic — its result is the same for
any two program states (so also for any interleaving of concurrent
calls), and it reads no mutable state and leaves the state unchanged. -/
theorem claim_C5 (env : SizeEnv) (s₁ s₂ : Mem) :
    ((sizeOfH3Index env s₁).1 = (sizeOfH3Index env s₂).1 ∧
      (sizeOfH3Index env s₁).2 = s₁) ∧
    ((sizeOfLatLng env s₁).1 = (sizeOfLatLng env s₂).1 ∧
      (sizeOfLatLng env s₁).2 = s₁) ∧
    ((sizeOfCellBoundary env s₁).1 = (sizeOfCellBoundary env s₂).1 ∧
      (sizeOfCellBoundary env s₁).2 = s₁) ∧
    ((sizeOfGeoLoop env s₁).1 = (sizeOfGeoLoop env s₂).1 ∧
      (sizeOfGeoLoop env s₁).2 = s₁) ∧
    ((sizeOfGeoPolygon env s₁).1 = (sizeOfGeoPolygon env s₂).1 ∧
      (sizeOfGeoPolygon env s₁).2 = s₁) ∧
    ((sizeOfLinkedGeoPolygon env s₁).1 = (sizeOfLinkedGeoPolygon env s₂).1 ∧
      (sizeOfLinkedGeoPolygon env s₁).2 = s₁) ∧
    ((sizeOfCoordIJ env s₁).1 = (sizeOfCoordIJ env s₂).1 ∧
      (sizeOfCoordIJ env s₁).2 = s₁) :=
  ⟨⟨rfl, rfl⟩, ⟨rfl, rfl⟩, ⟨rfl, rfl⟩, ⟨rfl, rfl⟩, ⟨rfl, rfl⟩, ⟨rfl, rfl⟩,
   ⟨rfl, rfl⟩⟩

/-- C6: every operation is side-effect-free — each size query returns the
state unchanged, and whenever `int64PointerAsDouble` returns, the final
state equals the initial one and in particular the 64-bit value at the
dereferenced location is unchanged. -/
theorem claim_C6 (env : SizeEnv) (s : Mem) (p : Nat) :
    (sizeOfH3Index env s).2 = s ∧ (sizeOfLatLng env s).2 = s ∧
    (sizeOfCellBoundary env s).2 = s ∧ (sizeOfGeoLoop env s).2 = s ∧
    (sizeOfGeoPolygon env s).2 = s ∧ (sizeOfLinkedGeoPolygon env s).2 = s ∧
    (sizeOfCoordIJ env s).2 = s ∧
    (∀ d t, int64PointerAsDouble s p = some (d, t) →
      t = s ∧ t.load p = s.load p) := by
  refine ⟨rfl, rfl, rfl, rfl, rfl, rfl, rfl, ?_⟩
  intro d t h
  unfold int64PointerAsDouble at h
  by_cases hv : s.valid p = true
  · rw [if_pos hv] at h
    injection h with h1
    injection h1 with hd ht
    exact ⟨ht.symm, by rw [← ht]⟩
  · rw [if_neg hv] at h
    exact absurd h (by simp)

/-- C6 witness: at a concrete state, the helper call leaves the memory
and the pointed-to value unchanged. -/
theorem claim_C6_witness : memC1 = memC1 ∧ memC1.load 0 = memC1.load 0 :=
  (claim_C6 envW memC1 0).2.2.2.2.2.2.2
    (doubleOfInt64 (memC1.load 0)) memC1 rfl

/-- C7: under the precondition that the pointer is valid,
`int64PointerAsDouble` always succeeds with some value (its only failure
mode is an invalid location), and the size queries always return their
value with no failure mode at all. -/
theorem claim_C7 (env : SizeEnv) (s : Mem) (p : Nat) :
    (s.valid p = true → ∃ d : Int, int64PointerAsDouble s p = some (d, s)) ∧
    (s.valid p = false → int64PointerAsDouble s p = none) ∧
    sizeOfH3Index env s = ((env.h3Index : Int), s) ∧
    sizeOfLatLng env s = ((env.latLng : Int), s) ∧
    sizeOfCellBoundary env s = ((env.cellBoundary : Int), s) ∧
    sizeOfGeoLoop env s = ((env.geoLoop : Int), s) ∧
    sizeOfGeoPolygon env s = ((env.geoPolygon : Int), s) ∧
    sizeOfLinkedGeoPolygon env s = ((env.linkedGeoPolygon : Int), s) ∧
    sizeOfCoordIJ env s = ((env.coordIJ : Int), s) := by
  refine ⟨?_, ?_, rfl, rfl, rfl, rfl, rfl, rfl, rfl⟩
  · intro hv
    exact ⟨doubleOfInt64 (s.load p), by
      unfold int64PointerAsDouble; rw [if_pos hv]⟩
  · intro hv
    unfold int64PointerAsDouble
    rw [if_neg (by simp [hv])]

/-- C7 witness: at a concrete valid pointer the helper succeeds. -/
theorem claim_C7_witness :
    ∃ d : Int, int64PointerAsDouble memC1 0 = some (d, memC1) :=
  (claim_C7 envW memC1 0).1 rfl

/-- C8: every operation terminates — each size query evaluates to an
explicit result pair, and on any input satisfying its precondition the
helper evaluates to an explicit `some` result; there is no blocking or
unbounded computation. -/
theorem claim_C8 (env : SizeEnv) (s : Mem) (p : Nat) :
    sizeOfH3Index env s = ((env.h3Index : Int), s) ∧
    sizeOfLatLng env s = ((env.latLng : Int), s) ∧
    sizeOfCellBoundary env s = ((env.cellBoundary : Int), s) ∧
    sizeOfGeoLoop env s = ((env.geoLoop : Int), s) ∧
    sizeOfGeoPolygon env s = ((env.geoPolygon : Int), s) ∧
    sizeOfLinkedGeoPolygon env s = ((env.linkedGeoPolygon : Int), s) ∧
    sizeOfCoordIJ env s = ((env.coordIJ : Int), s) ∧
    (s.valid p = true →
      int64PointerAsDouble s p = some (doubleOfInt64 (s.load p), s)) := by
  refine ⟨rfl, rfl, rfl, rfl, rfl, rfl, rfl, fun hv => ?_⟩
  unfold int64PointerAsDouble
  rw [if_pos hv]

/-- C8 witness: at a concrete valid pointer the helper completes with an
explicit value. -/
theorem claim_C8_witness :
    int64PointerAsDouble memC1 0 = some (doubleOfInt64 (memC1.load 0), memC1) :=
  (claim_C8 envW memC1 0).2.2.2.2.2.2.2 rfl

/-- C9: the header and the implementation disagree exactly as claimed —
`sizeOfGeoCoord`, `sizeOfGeoBoundary` and `sizeOfGeofence` are declared
but never defined; `sizeOfLatLng`, `sizeOfCellBoundary`, `sizeOfGeoLoop`,
`sizeOfCoordIJ` and `int64PointerAsDouble` are defined but never
declared; only `sizeOfH3Index`, `sizeOfGeoPolygon` and
`sizeOfLinkedGeoPolygon` appear in both. -/
theorem claim_C9 :
    headerOnly = ["sizeOfGeoCoord", "sizeOfGeoBoundary", "sizeOfGeofence"] ∧
    implOnly = ["sizeOfLatLng", "sizeOfCellBoundary", "sizeOfGeoLoop",
      "sizeOfCoordIJ", "int64PointerAsDouble"] ∧
    inBoth = ["sizeOfH3Index", "sizeOfGeoPolygon", "sizeOfLinkedGeoPolygon"] :=
  ⟨rfl, rfl, rfl⟩

/-- C10: `int64PointerAsDouble` is monotone and sign-preserving in the
pointed-to value: two valid locations with values in order convert to
results in the same order, and the result is negative, zero, or positive
exactly when the stored integer is. -/
theorem claim_C10 (s : Mem) (p q : Nat) (hp : s.valid p = true)
    (hq : s.valid q = true) (hle : s.load p ≤ s.load q) :
    ∃ dp dq : Int,
      int64PointerAsDouble s p = some (dp, s) ∧
      int64PointerAsDouble s q = some (dq, s) ∧
      dp ≤ dq ∧
      (dp < 0 ↔ s.load p < 0) ∧ (dp = 0 ↔ s.load p = 0) ∧
      (0 < dp ↔ 0 < s.load p) := by
  refine ⟨doubleOfInt64 (s.load p), doubleOfInt64 (s.load q), ?_, ?_,
    doubleOfInt64_mono hle, (doubleOfInt64_sign _).1,
    (doubleOfInt64_sign _).2.1, (doubleOfInt64_sign _).2.2⟩
  · unfold int64PointerAsDouble; rw [if_pos hp]
  · unfold int64PointerAsDouble; rw [if_pos hq]

/-- C10 witness: at a concrete memory holding -5 at address 0 and 7 at
address 1, the converted values are ordered and the sign is preserved. -/
theorem claim_C10_witness :
    ∃ dp dq : Int,
      int64PointerAsDouble memC10 0 = some (dp, memC10) ∧
      int64PointerAsDouble memC10 1 = some (dq, memC10) ∧
      dp ≤ dq ∧
      (dp < 0 ↔ memC10.load 0 < 0) ∧ (dp = 0 ↔ memC10.load 0 = 0) ∧
      (0 < dp ↔ 0 < memC10.load 0) :=
  claim_C10 memC10 0 1 rfl rfl (by decide)

end H3Sizes
